import Mathlib

/-!
Verification of the code-emission backend in `nnscaler/codegen/emit.py`.

The Python module is shallowly embedded below:

* `Val` is the closed set of values accepted by `_safe_repr_value`
  (an `IRValue` wrapper, a managed `IRObject`/`IRTensor`/`IRSubTensor`,
  slices, dicts, lists, tuples, the plain literals, and `torch.device`).
* Python dicts keyed by objects become insertion-ordered association
  lists (`dictSet` overwrites in place like Python dict assignment,
  `dictFind?` is `dict[k]` / `k in dict`).
* Managed-value identity (`IRObject.__eq__` / hashing, assigned by the
  upstream graph builder) is modelled by the `(name, tid, is_attr)`
  core record, since the unique `tid` identifies a managed value.
* Module-level configuration (`CompileFlag.line_timer`) and the fresh
  ids drawn by `IRObject('im_output')` are made explicit parameters
  (`line_timer`, the `fresh` counter).
* Fallible code (assertions, registry misses) returns `Except`.
-/

namespace Emit

/-- Managed-value identity: `IRObject.name`, `IRObject.tid`, and the
`is_attr()` flag. -/
structure ObjCore where
  name : String
  tid : Nat
  is_attr : Bool
  deriving DecidableEq

/-- Discrimination of the managed-value class hierarchy
`IRObject` ⊃ `IRTensor` ⊃ `IRSubTensor`. -/
inductive ObjKind where
  | object
  | tensor
  | subtensor
  deriving DecidableEq

/-- A managed value: its core identity, which class it belongs to, and
(for sub-tensors) the optional reference to its gradient tensor,
modelled by the gradient's core identity. -/
structure ObjData where
  core : ObjCore
  kind : ObjKind
  grad : Option ObjCore
  deriving DecidableEq

/-- The closed set of values handled by `_safe_repr_value`: the
`IRValue` wrapper, managed values, slices, dicts, lists, tuples, the
plain Python literals (int, str, bool, float, None, bytes, Ellipsis,
`torch.dtype` tags carried as their token string), and `torch.device`
descriptors. Any other runtime type raises `ValueError` in the source
and is therefore outside this type. -/
inductive Val where
  | wrapped (name : String)
  | obj (d : ObjData)
  | vslice (start stop step : Val)
  | vdict (entries : List (Val × Val))
  | vlist (elems : List Val)
  | vtuple (elems : List Val)
  | vint (n : Int)
  | vstr (s : String)
  | vbool (b : Bool)
  | vfloat (tok : String)
  | vnone
  | vbytes (tok : String)
  | vellipsis
  | vdtype (tok : String)
  | vdevice (ty : String) (index : Option Nat)

instance : Inhabited Val := ⟨Val.vnone⟩

/-- Python dict assignment `m[k] = v` on an insertion-ordered
association list: an existing key keeps its slot, a new key is
appended. -/
def dictSet {K V : Type} [DecidableEq K] : List (K × V) → K → V → List (K × V)
  | [], k, v => [(k, v)]
  | (k0, v0) :: rest, k, v =>
    if k0 = k then (k0, v) :: rest else (k0, v0) :: dictSet rest k v

/-- Python dict lookup `m[k]` (with `k in m` as `isSome`). -/
def dictFind? {K V : Type} [DecidableEq K] : List (K × V) → K → Option V
  | [], _ => none
  | (k0, v0) :: rest, k => if k0 = k then some v0 else dictFind? rest k

/-- Python's `name.replace('.', '_')` for the single-character pattern:
every `.` becomes `_`, all other characters are kept. -/
def sanitizeName (s : String) : String :=
  ⟨s.data.map fun c => if c = '.' then '_' else c⟩

/-- The identifier built by `_safe_repr_value` for a managed value:
`'_'.join([name.replace('.', '_'), str(tid)])`, with `prefix_attr`
prepended when it is given and the value is an attribute. -/
def objId (d : ObjData) (prefix_attr : Option String) : String :=
  let tensor_nm := sanitizeName d.core.name
  let nm := tensor_nm ++ "_" ++ Nat.repr d.core.tid
  match prefix_attr with
  | some p => if d.core.is_attr then p ++ nm else nm
  | none => nm

mutual

/-- Embedding of `_safe_repr_value`: replace every managed value by an
`IRValue` wrapping its identifier, recurse through slices, dicts,
lists and tuples, keep plain literals, and turn a `torch.device` into
its `type` or `type:index` string. The source's final
`raise ValueError` branch is unreachable because `Val` is the closed
supported set. -/
def _safe_repr_value : Val → Option String → Val
  | .wrapped nm, _ => .wrapped nm
  | .obj d, prefix_attr => .wrapped (objId d prefix_attr)
  | .vslice a b c, prefix_attr =>
    .vslice (_safe_repr_value a prefix_attr) (_safe_repr_value b prefix_attr)
      (_safe_repr_value c prefix_attr)
  | .vdict es, prefix_attr => .vdict (_safe_repr_pairs es prefix_attr)
  | .vlist vs, prefix_attr => .vlist (_safe_repr_list vs prefix_attr)
  | .vtuple vs, prefix_attr => .vtuple (_safe_repr_list vs prefix_attr)
  | .vint n, _ => .vint n
  | .vstr s, _ => .vstr s
  | .vbool b, _ => .vbool b
  | .vfloat f, _ => .vfloat f
  | .vnone, _ => .vnone
  | .vbytes bs, _ => .vbytes bs
  | .vellipsis, _ => .vellipsis
  | .vdtype t, _ => .vdtype t
  | .vdevice ty idx, _ =>
    .vstr (match idx with | none => ty | some i => ty ++ ":" ++ Nat.repr i)

/-- Elementwise `_safe_repr_value` over a Python list/tuple. -/
def _safe_repr_list : List Val → Option String → List Val
  | [], _ => []
  | v :: vs, prefix_attr =>
    _safe_repr_value v prefix_attr :: _safe_repr_list vs prefix_attr

/-- Key/value-wise `_safe_repr_value` over a Python dict. -/
def _safe_repr_pairs : List (Val × Val) → Option String → List (Val × Val)
  | [], _ => []
  | (k, v) :: es, prefix_attr =>
    (_safe_repr_value k prefix_attr, _safe_repr_value v prefix_attr) ::
      _safe_repr_pairs es prefix_attr

end

mutual

/-- Python `repr` on the resolved values: `IRValue.__repr__` is its
name, literals use Python literal syntax, containers recurse. The
`obj` case is unreachable through `tensor_name` because
`_safe_repr_value` eliminates managed values; it is given a fixed
placeholder. -/
def pyRepr : Val → String
  | .wrapped nm => nm
  | .obj _ => "<IRObject>"
  | .vslice a b c => "slice(" ++ pyRepr a ++ ", " ++ pyRepr b ++ ", " ++ pyRepr c ++ ")"
  | .vdict es => "\x7b" ++ String.intercalate ", " (pyReprPairs es) ++ "\x7d"
  | .vlist vs => "[" ++ String.intercalate ", " (pyReprList vs) ++ "]"
  | .vtuple vs =>
    "(" ++ String.intercalate ", " (pyReprList vs) ++
      (if vs.length = 1 then ",)" else ")")
  | .vint n => toString n
  | .vstr s => "\x27" ++ s ++ "\x27"
  | .vbool b => if b then "True" else "False"
  | .vfloat f => f
  | .vnone => "None"
  | .vbytes bs => "b\x27" ++ bs ++ "\x27"
  | .vellipsis => "Ellipsis"
  | .vdtype t => t
  | .vdevice ty idx =>
    "device(type=\x27" ++ ty ++ "\x27" ++
      (match idx with | none => "" | some i => ", index=" ++ Nat.repr i) ++ ")"

/-- Elementwise `repr` over a list/tuple body. -/
def pyReprList : List Val → List String
  | [] => []
  | v :: vs => pyRepr v :: pyReprList vs

/-- Entry-wise `repr` over a dict body (`key: value`). -/
def pyReprPairs : List (Val × Val) → List String
  | [] => []
  | (k, v) :: es => (pyRepr k ++ ": " ++ pyRepr v) :: pyReprPairs es

end

/-- Python `str` of a resolved value: identical to `repr` except that a
top-level string is rendered without quotes. -/
def pyStr (v : Val) : String :=
  match v with
  | .vstr s => s
  | _ => pyRepr v

/-- Embedding of `CodeEmission.tensor_name`:
`repr(_safe_repr_value(val, prefix_attr))`. -/
def tensor_name (val : Val) (prefix_attr : Option String) : String :=
  pyRepr (_safe_repr_value val prefix_attr)

/-- Python `isinstance(t, IRTensor)`. -/
def isTensorVal : Val → Bool
  | .obj d => d.kind = ObjKind.tensor ∨ d.kind = ObjKind.subtensor
  | _ => false

/-- Python `t.is_attr()` on a value (only managed values carry it). -/
def valIsAttr : Val → Bool
  | .obj d => d.core.is_attr
  | _ => false

/-- Embedding of `CodeEmission.tuple_name`: join the resolved names
with `", "`, always appending a trailing empty slot, skipping tensor
attributes when `skip_attr` is set. -/
def tuple_name (tensors : List Val) (skip_attr : Bool) (prefix_attr : Option String) : String :=
  let names := tensors.filterMap fun t =>
    if isTensorVal t && skip_attr && valIsAttr t then none
    else some (tensor_name t prefix_attr)
  "(" ++ String.intercalate ", " (names ++ [""]) ++ ")"

/-- Embedding of `CodeEmission.return_name`: same joining without the
trailing comma; an empty name list renders as the discard name `_`. -/
def return_name (tensors : List Val) (skip_attr : Bool) (prefix_attr : Option String) : String :=
  let names := tensors.filterMap fun t =>
    if isTensorVal t && skip_attr && valIsAttr t then none
    else some (tensor_name t prefix_attr)
  if names.length = 0 then "_" else String.intercalate ", " names

/-- Embedding of `_safe_str_dict`: `repr` of `_safe_repr_value` of each
value of a keyword dict. -/
def _safe_str_dict (d : List (String × Val)) (prefix_attr : Option String) :
    List (String × String) :=
  d.map fun kv => (kv.1, pyRepr (_safe_repr_value kv.2 prefix_attr))

/-- Embedding of `CodeEmission.kwargs_dict` (prefix defaults to none). -/
def kwargs_dict (kwargs : List (String × Val)) : List (String × String) :=
  _safe_str_dict kwargs none

mutual

/-- Modelled from the spec: `IRSegment.modify_objects_of_complex`
(defined in `nnscaler/graph/segment.py`, which is not part of the
source under review) applies a modifier to every `IRObject` found in a
value, recursing through dicts, lists and tuples. The modifier used by
`kwargs_name` wraps each managed value as `IRValue(tensor_name(t))`
with no prefix. -/
def modifyObjects : Val → Val
  | .obj d => .wrapped (tensor_name (.obj d) none)
  | .vdict es => .vdict (modifyObjectsPairs es)
  | .vlist vs => .vlist (modifyObjectsList vs)
  | .vtuple vs => .vtuple (modifyObjectsList vs)
  | v => v

/-- Elementwise `modifyObjects` over a list/tuple. -/
def modifyObjectsList : List Val → List Val
  | [] => []
  | v :: vs => modifyObjects v :: modifyObjectsList vs

/-- Key/value-wise `modifyObjects` over a dict. -/
def modifyObjectsPairs : List (Val × Val) → List (Val × Val)
  | [] => []
  | (k, v) :: es => (modifyObjects k, modifyObjects v) :: modifyObjectsPairs es

end

/-- Embedding of `CodeEmission.kwargs_name`: render each keyword
argument as `name=str(value)` after resolving managed values, joined
with `", "`. -/
def kwargs_name (kwargs : List (String × Val)) : String :=
  String.intercalate ", " (kwargs.map fun kv => kv.1 ++ "=" ++ pyStr (modifyObjects kv.2))

/-- A step of a path recorded by the inner `r` of `emit_fnode`: a
list/tuple position (an `int`) or a dict key. -/
inductive Step where
  | idx (i : Nat)
  | key (k : Val)

/-- Python `repr(p)` of a path step, as used when building the
subscript text `out[repr(p)]`. -/
def stepRepr : Step → String
  | .idx i => Nat.repr i
  | .key k => pyRepr k

mutual

/-- Embedding of the inner function `r` of `emit_fnode`: record, for
every managed value in the output tree, its path from the root in the
insertion-ordered dict `irobj_path`. -/
def collectPaths : Val → List Step → List (ObjData × List Step) → List (ObjData × List Step)
  | .obj d, cur, acc => dictSet acc d cur
  | .vlist vs, cur, acc => collectPathsIdx vs 0 cur acc
  | .vtuple vs, cur, acc => collectPathsIdx vs 0 cur acc
  | .vdict es, cur, acc => collectPathsKeys es cur acc
  | _, _, acc => acc

/-- The `for i, v in enumerate(t)` loop of `r` over a list/tuple. -/
def collectPathsIdx : List Val → Nat → List Step → List (ObjData × List Step) →
    List (ObjData × List Step)
  | [], _, _, acc => acc
  | v :: vs, i, cur, acc =>
    collectPathsIdx vs (i + 1) cur (collectPaths v (cur ++ [Step.idx i]) acc)

/-- The `for k, v in t.items()` loop of `r` over a dict. -/
def collectPathsKeys : List (Val × Val) → List Step → List (ObjData × List Step) →
    List (ObjData × List Step)
  | [], _, acc => acc
  | (k, v) :: es, cur, acc =>
    collectPathsKeys es cur (collectPaths v (cur ++ [Step.key k]) acc)

end

/-- The output-binding loop of `emit_fnode`'s nested branch: a managed
top-level slot is bound to its own name, any other top-level slot to a
freshly constructed `IRObject('im_output')`. The Python global id
counter feeding `IRObject.__init__` is made explicit: the first fresh
object receives tid `c`, the next `c + 1`, and so on. Returns the
rendered binder list and the synthesized-intermediate name list. -/
def fnodeOutsIms : Nat → List Val → List String × List String
  | _, [] => ([], [])
  | c, t :: ts =>
    match t with
    | .obj d =>
      let r := fnodeOutsIms c ts
      (tensor_name (.obj d) none :: r.1, r.2)
    | _ =>
      let im_ouptut := tensor_name (.obj ⟨⟨"im_output", c, false⟩, .object, none⟩) none
      let r := fnodeOutsIms (c + 1) ts
      (im_ouptut :: r.1, im_ouptut :: r.2)

/-- The progressive-subscript expression of `emit_fnode`:
`outputs[path[0]]` followed by one `[repr(p)]` per remaining step. The
first step of every recorded path is a list index because the output
tree's root is the Python list `node.outputs()`. -/
def extractExpr (outputs : List String) : List Step → String
  | Step.idx i :: rest =>
    rest.foldl (fun s p => s ++ "[" ++ stepRepr p ++ "]") (outputs.getD i "")
  | _ => ""

/-- The follow-up extraction statements of `emit_fnode`'s nested
branch: one `name = out[...]...` line per managed value whose path is
deeper than a top-level slot. -/
def extractLines (irobj_path : List (ObjData × List Step)) (outputs : List String) :
    List String :=
  irobj_path.filterMap fun dp =>
    if dp.2.length = 1 then none
    else some (tensor_name (.obj dp.1) none ++ " = " ++ extractExpr outputs dp.2)

/-- An `IRFwOperation` as consumed by `emit_fnode`: comment, signature,
input values, keyword arguments and the output tree (a Python list of
possibly nested values). -/
structure FwNode where
  comment : Option String
  signature : String
  ins : List Val
  kwargs : List (String × Val)
  outs : List Val

/-- The emission rule looked up in the `Sign2EmitRule` registry: it
receives the node, the resolved input names, the resolved keyword
dict and the three device-scale parameters, and returns the
right-hand-side expression text. -/
def EmitRule : Type :=
  FwNode → List String → List (String × String) → Nat → Nat → Nat → String

/-- The label of the optional timer probe: `node.comment or
node.signature`, with Python truthiness (an empty comment string is
falsy). -/
def fnodeTimerLabel (node : FwNode) : String :=
  match node.comment with
  | some c => if c = "" then node.signature else c
  | none => node.signature

/-- Embedding of `FuncEmission.emit_fnode`. The `Sign2EmitRule`
registry (defined in `nnscaler/codegen/frontend_mapping.py`, outside
the source under review) is passed in as the partial map `rules`; a
missing signature is the fatal missing-rule error. `CompileFlag.line_timer`
is the explicit `line_timer` flag and `fresh` is the next free id of
the global `IRObject` id counter. -/
def emit_fnode (rules : String → Option EmitRule) (line_timer : Bool) (fresh : Nat)
    (node : FwNode) (runtime_devid plan_ndevs runtime_ndevs : Nat)
    (prefix_attr : Option String) : Except String (List String) :=
  let codes :=
    (match node.comment with | some c => ["# " ++ c] | none => []) ++
    (if line_timer then
      ["nnscaler.runtime.function.print_time(" ++ pyRepr (.vstr (fnodeTimerLabel node)) ++ ")"]
    else [])
  match rules node.signature with
  | none => .error ("No emit rule found for signature: " ++ node.signature)
  | some rule =>
    let inputs := node.ins.map fun t => tensor_name t prefix_attr
    let kwargs := kwargs_dict node.kwargs
    let body := rule node inputs kwargs runtime_devid plan_ndevs runtime_ndevs
    if node.outs.length = 0 then
      .ok (codes ++ [body])
    else
      let irobj_path := collectPaths (.vlist node.outs) [] []
      if irobj_path.all fun x => x.2.length = 1 then
        let outputs := node.outs.map fun t => tensor_name t none
        .ok (codes ++ [String.intercalate ", " outputs ++ " = " ++ body])
      else
        let oi := fnodeOutsIms fresh node.outs
        .ok (codes ++ [String.intercalate ", " oi.1 ++ " = " ++ body] ++
          extractLines irobj_path oi.1 ++ oi.2.map fun im => "del " ++ im)

/-- A communication/data-movement primitive of an adapter (or, in the
differentiable-custom case, the adapter itself treated as one
primitive): signature, inputs, outputs, keyword arguments, device
list, and whether it is a collective (`isinstance(prim, CommPrim)`). -/
structure Prim where
  signature : String
  ins : List Val
  outs : List Val
  kwargs : List (String × Val)
  device : List Nat
  is_comm : Bool

/-- An `IRAdapter` node as consumed by `emit_adapter`. -/
structure AdapterNode where
  signature : String
  ins : List Val
  outs : List Val
  kwargs : List (String × Val)
  device : List Nat
  differentiable : Bool
  custom : Bool
  prims : List Prim

/-- The adapter itself treated as the single primitive to emit, in the
differentiable-custom case; `isinstance(node, CommPrim)` is false. -/
def adapterSelfPrim (node : AdapterNode) : Prim :=
  ⟨node.signature, node.ins, node.outs, node.kwargs, node.device, false⟩

/-- Python `set(a) == set(b)` on device lists. -/
def listSetEq (a b : List Nat) : Bool :=
  (a.all fun x => b.contains x) && (b.all fun x => a.contains x)

/-- The positions of the non-collective primitives in the primitive
sequence. Python computes `prims.index(p)` for each non-collective
`p`; since list members are pairwise-distinct objects and `index`
uses object identity, this recovers exactly each one's position. -/
def nonCollIdxs (prims : List Prim) : List Nat :=
  prims.enum.filterMap fun p => if p.2.is_comm then none else some p.1

/-- The async-overlap legality downgrade of `emit_adapter`: starting
from the requested `async_op`, clear it when condition 1 fails (only
checked when more than one non-collective primitive is present:
`max(prims.index(p) for p in non_colls) + 1 != len(non_colls)`), then
clear it when condition 2 fails (more than one collective primitive
and not all collective device sets equal the first one). -/
def adapterAsync (prims : List Prim) (async_op : Bool) : Bool :=
  if async_op then
    let non_colls := prims.filter fun p => !p.is_comm
    let colls := prims.filter fun p => p.is_comm
    let a1 :=
      if non_colls.length > 1 && !((nonCollIdxs prims).foldl max 0 + 1 = non_colls.length) then
        false
      else async_op
    let devices := colls.map fun p => p.device
    let a2 :=
      if colls.length > 1 && !((devices.drop 1).all fun devs => listSetEq devs devices.headI) then
        false
      else a1
    a2
  else async_op

/-- The keyword arguments a primitive is emitted with: a copy of its
own kwargs, with `async_op=True` inserted when the adapter-level async
flag survived the legality downgrade and the primitive is a
collective. -/
def primFinalKwargs (a : Bool) (p : Prim) : List (String × Val) :=
  if a && p.is_comm then dictSet p.kwargs "async_op" (Val.vbool true) else p.kwargs

/-- Per-primitive emission inside `emit_adapter`: the single input's
name or the input tuple, the rendered keyword arguments, the optional
timer probe and the call statement. -/
def emitPrim (line_timer : Bool) (prefix_attr : Option String) (a : Bool) (p : Prim) :
    List String :=
  let itensors :=
    match p.ins with
    | [t] => tensor_name t prefix_attr
    | ts => tuple_name ts false prefix_attr
  let kwargs := kwargs_name (primFinalKwargs a p)
  let outputs := return_name p.outs false none
  (if line_timer then
    ["nnscaler.runtime.function.print_time(" ++ pyRepr (.vstr p.signature) ++ ")"]
  else []) ++
  [outputs ++ " = " ++ p.signature ++ "(" ++ itensors ++ ", " ++ kwargs ++ ")"]

/-- Embedding of `FuncEmission.emit_adapter`: assert the adapter is
pinned to exactly one device, select the primitive list (the adapter
itself when differentiable and custom), run the async-legality
downgrade, and emit every primitive in sequence. -/
def emit_adapter (line_timer : Bool) (node : AdapterNode) (prefix_attr : Option String)
    (async_op : Bool) : Except String (List String) :=
  if node.device.length = 1 then
    let prims := if node.differentiable && node.custom then [adapterSelfPrim node] else node.prims
    let a := adapterAsync prims async_op
    .ok ((prims.map (emitPrim line_timer prefix_attr a)).flatten)
  else .error "Expected adapter to be dispatched"

/-- The forward node a backward node mirrors, as consumed by
`get_backward_callsite_io_tensors`: only its inputs and outputs are
read. -/
structure CellIO where
  ins : List Val
  outs : List Val

/-- A backward `IRCell`: the `isfw()` flag, inputs, outputs and the
optional mirror link. -/
structure BwOp where
  is_fw : Bool
  ins : List Val
  outs : List Val
  mirror : Option CellIO

/-- Python `isinstance(t, IRSubTensor)`, keeping the managed value. -/
def subTensorOf : Val → Option ObjData
  | .obj d => if d.kind = ObjKind.subtensor then some d else none
  | _ => none

/-- The `grad2tensor` dict of `get_backward_callsite_io_tensors`: maps
the gradient reference of every sub-tensor among the forward node's
inputs and outputs back to that forward tensor. -/
def gradMap (fwop : CellIO) : List (ObjCore × ObjData) :=
  (fwop.ins ++ fwop.outs).foldl
    (fun m t =>
      match subTensorOf t with
      | some d => match d.grad with | some g => dictSet m g d | none => m
      | none => m)
    []

/-- Embedding of `FuncEmission.get_backward_callsite_io_tensors`:
reject forward nodes, require a mirror, rebuild `grad2tensor`, take the
backward node's sub-tensor outputs/inputs as `input_grads` /
`output_grads`, and resolve them through `grad2tensor`, silently
dropping any gradient with no match. Returns
`(input_tensors, output_tensors, output_grads, input_grads)`. -/
def get_backward_callsite_io_tensors (bwop : BwOp) :
    Except String (List ObjData × List ObjData × List ObjData × List ObjData) :=
  if bwop.is_fw then .error "assert not bwop.isfw() failed" else
  match bwop.mirror with
  | none => .error "backward node has no mirrored forward node"
  | some fwop =>
    let grad2tensor := gradMap fwop
    let input_grads := bwop.outs.filterMap subTensorOf
    let output_grads := bwop.ins.filterMap subTensorOf
    let input_tensors := input_grads.filterMap fun g => dictFind? grad2tensor g.core
    let output_tensors := output_grads.filterMap fun g => dictFind? grad2tensor g.core
    .ok (input_tensors, output_tensors, output_grads, input_grads)

/-- Spec-side ordering legality, following the spec's words: all
non-collective primitives occupy a contiguous prefix of the sequence,
checked by verifying that the highest sequence index among
non-collective primitives equals their count minus one (vacuous when
there is no non-collective primitive). -/
def specOrderingLegalB (prims : List Prim) : Bool :=
  let idxs := nonCollIdxs prims
  if idxs.isEmpty then true else idxs.foldl max 0 + 1 = idxs.length

/-- Spec-side device-group uniformity, following the spec's words: if
more than one collective primitive is present, all collective
primitives target the identical device set. -/
def specDeviceLegalB (prims : List Prim) : Bool :=
  let colls := prims.filter fun p => p.is_comm
  match colls.map fun p => p.device with
  | [] => true
  | d0 :: rest => rest.all fun d => listSetEq d d0

/-- Spec-side async-overlap legality: both spec conditions hold. -/
def specAsyncLegalB (prims : List Prim) : Bool :=
  specOrderingLegalB prims && specDeviceLegalB prims

/-- Numeric value of a decimal digit character list (proof device for
the injectivity of `Nat.repr`). -/
def digitsVal (l : List Char) : Nat :=
  l.foldl (fun a c => a * 10 + (c.toNat - 48)) 0

theorem digitChar_val : ∀ m, m < 10 → (Nat.digitChar m).toNat - 48 = m := by decide

theorem digitChar_isDigit : ∀ m, m < 10 → (Nat.digitChar m).isDigit = true := by decide

theorem toDigitsCore_shift (b : Nat) :
    ∀ (fuel n : Nat) (ds : List Char),
      Nat.toDigitsCore b fuel n ds = Nat.toDigitsCore b fuel n [] ++ ds := by
  intro fuel
  induction fuel with
  | zero => intro n ds; rfl
  | succ f ih =>
    intro n ds
    simp only [Nat.toDigitsCore]
    by_cases h : n / b = 0
    · simp [h]
    · rw [if_neg h, if_neg h, ih (n / b) (Nat.digitChar (n % b) :: ds),
        ih (n / b) [Nat.digitChar (n % b)], List.append_assoc, List.singleton_append]

theorem digitsVal_append_digit (xs : List Char) (c : Char) :
    digitsVal (xs ++ [c]) = digitsVal xs * 10 + (c.toNat - 48) := by
  simp [digitsVal, List.foldl_append]

theorem toDigitsCore_val :
    ∀ (fuel n : Nat), n < 10 ^ fuel → digitsVal (Nat.toDigitsCore 10 fuel n []) = n := by
  intro fuel
  induction fuel with
  | zero => intro n h; interval_cases n; rfl
  | succ f ih =>
    intro n h
    simp only [Nat.toDigitsCore]
    by_cases h0 : n / 10 = 0
    · have hn : n < 10 := by omega
      have hv := digitChar_val n hn
      have hmod : n % 10 = n := Nat.mod_eq_of_lt hn
      simp [h0, digitsVal, hmod, hv]
    · rw [if_neg h0, toDigitsCore_shift, digitsVal_append_digit]
      have hdiv : n / 10 < 10 ^ f := by
        rw [Nat.div_lt_iff_lt_mul (by norm_num)]
        calc n < 10 ^ (f + 1) := h
          _ = 10 ^ f * 10 := by ring
      rw [ih (n / 10) hdiv, digitChar_val (n % 10) (Nat.mod_lt n (by norm_num))]
      omega

theorem nat_lt_ten_pow (n : Nat) : n < 10 ^ (n + 1) :=
  lt_of_lt_of_le (Nat.lt_two_pow n)
    (le_trans (Nat.pow_le_pow_left (by norm_num) n)
      (Nat.pow_le_pow_right (by norm_num) (Nat.le_succ n)))

theorem nat_repr_inj {m n : Nat} (h : Nat.repr m = Nat.repr n) : m = n := by
  have hd : Nat.toDigits 10 m = Nat.toDigits 10 n := congrArg String.data h
  have hm := toDigitsCore_val (m + 1) m (nat_lt_ten_pow m)
  have hn := toDigitsCore_val (n + 1) n (nat_lt_ten_pow n)
  rw [← hm, ← hn]
  unfold Nat.toDigits at hd
  rw [hd]

theorem toDigitsCore_isDigit :
    ∀ (fuel n : Nat) (ds : List Char) (c : Char),
      c ∈ Nat.toDigitsCore 10 fuel n ds → c ∈ ds ∨ c.isDigit = true := by
  intro fuel
  induction fuel with
  | zero => intro n ds c h; exact Or.inl h
  | succ f ih =>
    intro n ds c h
    simp only [Nat.toDigitsCore] at h
    by_cases h0 : n / 10 = 0
    · rw [if_pos h0] at h
      rcases List.mem_cons.mp h with h1 | h1
      · exact Or.inr (h1 ▸ digitChar_isDigit (n % 10) (Nat.mod_lt n (by norm_num)))
      · exact Or.inl h1
    · rw [if_neg h0] at h
      rcases ih (n / 10) (Nat.digitChar (n % 10) :: ds) c h with h1 | h1
      · rcases List.mem_cons.mp h1 with h2 | h2
        · exact Or.inr (h2 ▸ digitChar_isDigit (n % 10) (Nat.mod_lt n (by norm_num)))
        · exact Or.inl h2
      · exact Or.inr h1

theorem underscore_not_mem_repr (n : Nat) : ('_' : Char) ∉ (Nat.repr n).data := by
  intro h
  rcases toDigitsCore_isDigit (n + 1) n [] _ h with h1 | h1
  · exact List.not_mem_nil _ h1
  · exact absurd h1 (by decide)

theorem sep_tail_eq {c : Char} :
    ∀ (l1 l2 t1 t2 : List Char),
      l1 ++ c :: t1 = l2 ++ c :: t2 → c ∉ t1 → c ∉ t2 → t1 = t2 := by
  intro l1
  induction l1 with
  | nil =>
    intro l2 t1 t2 h h1 h2
    cases l2 with
    | nil => simpa using h
    | cons y ys =>
      simp only [List.nil_append, List.cons_append, List.cons.injEq] at h
      exfalso
      apply h1
      rw [h.2]
      exact List.mem_append_right ys (List.mem_cons_self c t2)
  | cons x xs ih =>
    intro l2 t1 t2 h h1 h2
    cases l2 with
    | nil =>
      simp only [List.nil_append, List.cons_append, List.cons.injEq] at h
      exfalso
      apply h2
      rw [← h.2]
      exact List.mem_append_right xs (List.mem_cons_self c t1)
    | cons y ys =>
      simp only [List.cons_append, List.cons.injEq] at h
      exact ih ys t1 t2 h.2 h1 h2

theorem tensor_name_obj_eq (d : ObjData) (p : Option String) :
    tensor_name (.obj d) p = objId d p := rfl

theorem objId_data (d : ObjData) (p : Option String) :
    ∃ l, (objId d p).data = l ++ ('_' : Char) :: (Nat.repr d.core.tid).data := by
  have hu : ("_" : String).data = [('_' : Char)] := rfl
  unfold objId
  cases p with
  | none =>
    refine ⟨(sanitizeName d.core.name).data, ?_⟩
    simp [String.data_append, hu]
  | some q =>
    by_cases ha : d.core.is_attr
    · refine ⟨q.data ++ (sanitizeName d.core.name).data, ?_⟩
      simp [ha, String.data_append, hu]
    · refine ⟨(sanitizeName d.core.name).data, ?_⟩
      simp [ha, String.data_append, hu]

/-- C5: two managed values with distinct unique ids render, under the
same prefix policy, to different identifiers — even when their base
names collide after separator normalization — and `tensor_name` is
deterministic for the same value and arguments. -/
theorem c5_tensor_name_unique_stable :
    (∀ (d1 d2 : ObjData) (p : Option String), d1.core.tid ≠ d2.core.tid →
        tensor_name (.obj d1) p ≠ tensor_name (.obj d2) p) ∧
    (∀ (v : Val) (p : Option String), tensor_name v p = tensor_name v p) := by
  constructor
  · intro d1 d2 p hne he
    have he' : objId d1 p = objId d2 p := he
    obtain ⟨l1, h1⟩ := objId_data d1 p
    obtain ⟨l2, h2⟩ := objId_data d2 p
    have hd : (objId d1 p).data = (objId d2 p).data := by rw [he']
    rw [h1, h2] at hd
    have ht := sep_tail_eq l1 l2 _ _ hd (underscore_not_mem_repr d1.core.tid)
      (underscore_not_mem_repr d2.core.tid)
    exact hne (nat_repr_inj (String.ext ht))
  · intro v p
    rfl

/-- Witness for C5: the base names `a.1` and `a_1` collide after
separator normalization, yet tids 1 and 2 keep the identifiers
distinct. -/
theorem c5_tensor_name_unique_stable_witness :
    (1 : Nat) ≠ 2 ∧
    tensor_name (.obj ⟨⟨"a.1", 1, false⟩, .tensor, none⟩) none ≠
      tensor_name (.obj ⟨⟨"a_1", 2, false⟩, .tensor, none⟩) none :=
  ⟨by decide,
    c5_tensor_name_unique_stable.1 ⟨⟨"a.1", 1, false⟩, .tensor, none⟩
      ⟨⟨"a_1", 2, false⟩, .tensor, none⟩ none (by decide)⟩

/-- Structural induction over `Val` that exposes membership in the
nested list/dict constructors. -/
theorem val_ind (motive : Val → Prop)
    (hwrapped : ∀ s, motive (.wrapped s))
    (hobj : ∀ d, motive (.obj d))
    (hslice : ∀ a b c, motive a → motive b → motive c → motive (.vslice a b c))
    (hdict : ∀ es, (∀ kv ∈ es, motive kv.1 ∧ motive kv.2) → motive (.vdict es))
    (hlist : ∀ vs, (∀ v ∈ vs, motive v) → motive (.vlist vs))
    (htuple : ∀ vs, (∀ v ∈ vs, motive v) → motive (.vtuple vs))
    (hint : ∀ n, motive (.vint n))
    (hstr : ∀ s, motive (.vstr s))
    (hbool : ∀ b, motive (.vbool b))
    (hfloat : ∀ f, motive (.vfloat f))
    (hnone : motive .vnone)
    (hbytes : ∀ bs, motive (.vbytes bs))
    (hell : motive .vellipsis)
    (hdtype : ∀ t, motive (.vdtype t))
    (hdevice : ∀ ty idx, motive (.vdevice ty idx)) : ∀ v, motive v := by
  have key : ∀ (n : Nat) (v : Val), sizeOf v ≤ n → motive v := by
    intro n
    induction n with
    | zero =>
      intro v hv
      exfalso
      cases v <;> simp at hv
    | succ n ih =>
      intro v hv
      cases v with
      | wrapped s => exact hwrapped s
      | obj d => exact hobj d
      | vslice a b c =>
        refine hslice a b c (ih a ?_) (ih b ?_) (ih c ?_) <;> (simp at hv; omega)
      | vdict es =>
        refine hdict es fun kv hkv => ⟨ih kv.1 ?_, ih kv.2 ?_⟩ <;>
          (have hs := List.sizeOf_lt_of_mem hkv; obtain ⟨k1, k2⟩ := kv;
            simp at hv hs ⊢; omega)
      | vlist vs =>
        refine hlist vs fun v hmem => ih v ?_
        have hs := List.sizeOf_lt_of_mem hmem
        simp at hv
        omega
      | vtuple vs =>
        refine htuple vs fun v hmem => ih v ?_
        have hs := List.sizeOf_lt_of_mem hmem
        simp at hv
        omega
      | vint m => exact hint m
      | vstr s => exact hstr s
      | vbool b => exact hbool b
      | vfloat f => exact hfloat f
      | vnone => exact hnone
      | vbytes bs => exact hbytes bs
      | vellipsis => exact hell
      | vdtype t => exact hdtype t
      | vdevice ty idx => exact hdevice ty idx
  exact fun v => key (sizeOf v) v (le_refl _)

theorem _safe_repr_list_eq_map (vs : List Val) (p : Option String) :
    _safe_repr_list vs p = vs.map fun v => _safe_repr_value v p := by
  induction vs with
  | nil => rfl
  | cons v vs ih => simp [_safe_repr_list, ih]

theorem _safe_repr_pairs_eq_map (es : List (Val × Val)) (p : Option String) :
    _safe_repr_pairs es p =
      es.map fun kv => (_safe_repr_value kv.1 p, _safe_repr_value kv.2 p) := by
  induction es with
  | nil => rfl
  | cons kv es ih => cases kv; simp [_safe_repr_pairs, ih]

/-- C10: `_safe_repr_value` is idempotent on the supported closed set
of values, for any prefix; in particular, an already-wrapped `IRValue`
is returned unchanged, so a name is never re-resolved or
double-prefixed. -/
theorem c10_safe_repr_value_idempotent :
    (∀ (v : Val) (prefix_attr : Option String),
        _safe_repr_value (_safe_repr_value v prefix_attr) prefix_attr =
          _safe_repr_value v prefix_attr) ∧
    (∀ (s : String) (prefix_attr : Option String),
        _safe_repr_value (.wrapped s) prefix_attr = .wrapped s) := by
  refine ⟨?_, fun s p => rfl⟩
  intro v p
  induction v using val_ind with
  | hwrapped s => rfl
  | hobj d => rfl
  | hslice a b c ha hb hc => simp [_safe_repr_value, ha, hb, hc]
  | hdict es hes =>
    simp only [_safe_repr_value, _safe_repr_pairs_eq_map, List.map_map]
    congr 1
    apply List.map_congr_left
    intro kv hkv
    simp [Function.comp, (hes kv hkv).1, (hes kv hkv).2]
  | hlist vs hvs =>
    simp only [_safe_repr_value, _safe_repr_list_eq_map, List.map_map]
    congr 1
    apply List.map_congr_left
    intro v hv
    simp [Function.comp, hvs v hv]
  | htuple vs hvs =>
    simp only [_safe_repr_value, _safe_repr_list_eq_map, List.map_map]
    congr 1
    apply List.map_congr_left
    intro v hv
    simp [Function.comp, hvs v hv]
  | hint n => rfl
  | hstr s => rfl
  | hbool b => rfl
  | hfloat f => rfl
  | hnone => rfl
  | hbytes bs => rfl
  | hell => rfl
  | hdtype t => rfl
  | hdevice ty idx => cases idx <;> rfl

/-- C3: the backward resolution round-trip on a mirrored pair with
forward inputs `[A]`, outputs `[B]`, gradients `gA`/`gB`, and a
backward node with inputs `[gB]`, outputs `[gA]`: the result is
exactly `([A], [B], [gB], [gA])`, in the fixed order
(input_tensors, output_tensors, output_grads, input_grads). -/
theorem c3_backward_roundtrip :
    ∀ (a b ga gb : ObjCore), ga ≠ gb →
      get_backward_callsite_io_tensors
        ⟨false, [.obj ⟨gb, .subtensor, none⟩], [.obj ⟨ga, .subtensor, none⟩],
          some ⟨[.obj ⟨a, .subtensor, some ga⟩], [.obj ⟨b, .subtensor, some gb⟩]⟩⟩ =
      .ok ([⟨a, .subtensor, some ga⟩], [⟨b, .subtensor, some gb⟩],
        [⟨gb, .subtensor, none⟩], [⟨ga, .subtensor, none⟩]) := by
  intro a b ga gb h
  simp [get_backward_callsite_io_tensors, gradMap, subTensorOf, dictSet, dictFind?, h]

/-- Witness for C3 at concrete tensors `A`, `B` and gradients `gA`,
`gB`. -/
theorem c3_backward_roundtrip_witness :
    (⟨"gA", 3, false⟩ : ObjCore) ≠ ⟨"gB", 4, false⟩ ∧
    get_backward_callsite_io_tensors
      ⟨false, [.obj ⟨⟨"gB", 4, false⟩, .subtensor, none⟩],
        [.obj ⟨⟨"gA", 3, false⟩, .subtensor, none⟩],
        some ⟨[.obj ⟨⟨"A", 1, false⟩, .subtensor, some ⟨"gA", 3, false⟩⟩],
          [.obj ⟨⟨"B", 2, false⟩, .subtensor, some ⟨"gB", 4, false⟩⟩]⟩⟩ =
    .ok ([⟨⟨"A", 1, false⟩, .subtensor, some ⟨"gA", 3, false⟩⟩],
      [⟨⟨"B", 2, false⟩, .subtensor, some ⟨"gB", 4, false⟩⟩],
      [⟨⟨"gB", 4, false⟩, .subtensor, none⟩],
      [⟨⟨"gA", 3, false⟩, .subtensor, none⟩]) :=
  ⟨by decide, c3_backward_roundtrip ⟨"A", 1, false⟩ ⟨"B", 2, false⟩ ⟨"gA", 3, false⟩
    ⟨"gB", 4, false⟩ (by decide)⟩

/-- C7: a tensor-like backward input `g` whose core is not a key of
the forward gradient map still lets the resolver return normally: `g`
appears in `output_grads` at its position, while `input_tensors`,
`output_tensors` and `input_grads` are exactly what the node without
`g` resolves to — so `g` contributes no entry to `output_tensors`.
Symmetrically, an unmatched tensor-like backward output stays in
`input_grads` and contributes no entry to `input_tensors`. -/
theorem c7_unmatched_grad_dropped :
    ∀ (l1 l2 other : List Val) (g : ObjData) (fwop : CellIO),
      g.kind = ObjKind.subtensor →
      dictFind? (gradMap fwop) g.core = none →
      get_backward_callsite_io_tensors ⟨false, l1 ++ Val.obj g :: l2, other, some fwop⟩ =
        .ok ((other.filterMap subTensorOf).filterMap
              (fun x => dictFind? (gradMap fwop) x.core),
          ((l1.filterMap subTensorOf ++ l2.filterMap subTensorOf).filterMap
            fun x => dictFind? (gradMap fwop) x.core),
          l1.filterMap subTensorOf ++ g :: l2.filterMap subTensorOf,
          other.filterMap subTensorOf) ∧
      get_backward_callsite_io_tensors ⟨false, l1 ++ l2, other, some fwop⟩ =
        .ok ((other.filterMap subTensorOf).filterMap
              (fun x => dictFind? (gradMap fwop) x.core),
          ((l1.filterMap subTensorOf ++ l2.filterMap subTensorOf).filterMap
            fun x => dictFind? (gradMap fwop) x.core),
          l1.filterMap subTensorOf ++ l2.filterMap subTensorOf,
          other.filterMap subTensorOf) ∧
      get_backward_callsite_io_tensors ⟨false, other, l1 ++ Val.obj g :: l2, some fwop⟩ =
        .ok (((l1.filterMap subTensorOf ++ l2.filterMap subTensorOf).filterMap
              fun x => dictFind? (gradMap fwop) x.core),
          ((other.filterMap subTensorOf).filterMap
            fun x => dictFind? (gradMap fwop) x.core),
          other.filterMap subTensorOf,
          l1.filterMap subTensorOf ++ g :: l2.filterMap subTensorOf) ∧
      get_backward_callsite_io_tensors ⟨false, other, l1 ++ l2, some fwop⟩ =
        .ok (((l1.filterMap subTensorOf ++ l2.filterMap subTensorOf).filterMap
              fun x => dictFind? (gradMap fwop) x.core),
          ((other.filterMap subTensorOf).filterMap
            fun x => dictFind? (gradMap fwop) x.core),
          other.filterMap subTensorOf,
          l1.filterMap subTensorOf ++ l2.filterMap subTensorOf) := by
  intro l1 l2 other g fwop hknd hg
  have hsub : subTensorOf (Val.obj g) = some g := by simp [subTensorOf, hknd]
  refine ⟨?_, ?_, ?_, ?_⟩
  · simp [get_backward_callsite_io_tensors, List.filterMap_append, List.filterMap_cons,
      hsub, hg]
  · simp [get_backward_callsite_io_tensors, List.filterMap_append]
  · simp [get_backward_callsite_io_tensors, List.filterMap_append, List.filterMap_cons,
      hsub, hg]
  · simp [get_backward_callsite_io_tensors, List.filterMap_append]

/-- Witness for C7: the unmatched gradient `gB` is kept in
`output_grads` and dropped from `output_tensors`, next to a matched
gradient setup on the mirror. -/
theorem c7_unmatched_grad_dropped_witness :
    (⟨⟨"gB", 4, false⟩, .subtensor, none⟩ : ObjData).kind = ObjKind.subtensor ∧
    dictFind?
      (gradMap ⟨[Val.obj ⟨⟨"A", 1, false⟩, .subtensor, some ⟨"gA", 3, false⟩⟩], []⟩)
      (⟨"gB", 4, false⟩ : ObjCore) = none ∧
    get_backward_callsite_io_tensors
      ⟨false, [] ++ Val.obj ⟨⟨"gB", 4, false⟩, .subtensor, none⟩ :: [],
        [Val.obj ⟨⟨"gA", 3, false⟩, .subtensor, none⟩],
        some ⟨[Val.obj ⟨⟨"A", 1, false⟩, .subtensor, some ⟨"gA", 3, false⟩⟩], []⟩⟩ =
      .ok ([⟨⟨"A", 1, false⟩, .subtensor, some ⟨"gA", 3, false⟩⟩], [],
        [⟨⟨"gB", 4, false⟩, .subtensor, none⟩],
        [⟨⟨"gA", 3, false⟩, .subtensor, none⟩]) := by
  refine ⟨rfl, by decide, ?_⟩
  have h := (c7_unmatched_grad_dropped [] [] [Val.obj ⟨⟨"gA", 3, false⟩, .subtensor, none⟩]
    ⟨⟨"gB", 4, false⟩, .subtensor, none⟩
    ⟨[Val.obj ⟨⟨"A", 1, false⟩, .subtensor, some ⟨"gA", 3, false⟩⟩], []⟩
    rfl (by decide)).1
  simpa using h

/-- C8: `emit_adapter` fails exactly when the adapter's device set
does not have exactly one element, emitting nothing in that case; with
exactly one device the placement check passes for any primitive
content. -/
theorem c8_placement_check :
    (∀ (lt : Bool) (node : AdapterNode) (p : Option String) (a : Bool),
        (∃ cs, emit_adapter lt node p a = .ok cs) ↔ node.device.length = 1) ∧
    (∀ (lt : Bool) (node : AdapterNode) (p : Option String) (a : Bool),
        node.device.length ≠ 1 →
        emit_adapter lt node p a = .error "Expected adapter to be dispatched") := by
  constructor
  · intro lt node p a
    constructor
    · rintro ⟨cs, hcs⟩
      by_cases h : node.device.length = 1
      · exact h
      · simp [emit_adapter, h] at hcs
    · intro h
      refine ⟨((if node.differentiable && node.custom then [adapterSelfPrim node]
          else node.prims).map
            (emitPrim lt p
              (adapterAsync
                (if node.differentiable && node.custom then [adapterSelfPrim node]
                else node.prims) a))).flatten, ?_⟩
      unfold emit_adapter
      rw [if_pos h]
  · intro lt node p a h
    simp [emit_adapter, h]

/-- Witness for C8: an adapter left on two devices is rejected with no
emitted statements. -/
theorem c8_placement_check_witness :
    ([0, 1] : List Nat).length ≠ 1 ∧
    emit_adapter false ⟨"adapter", [], [], [], [0, 1], false, false, []⟩ none true =
      .error "Expected adapter to be dispatched" :=
  ⟨by decide,
    c8_placement_check.2 false ⟨"adapter", [], [], [], [0, 1], false, false, []⟩ none true
      (by decide)⟩

theorem dictFind?_dictSet {K V : Type} [DecidableEq K] :
    ∀ (m : List (K × V)) (k : K) (v : V), dictFind? (dictSet m k v) k = some v := by
  intro m k v
  induction m with
  | nil => simp [dictSet, dictFind?]
  | cons kv m ih =>
    obtain ⟨k0, v0⟩ := kv
    by_cases h : k0 = k <;> simp [dictSet, dictFind?, h, ih]

/-- A collective primitive on device group `[0]` for the C1 failing
input. -/
def c1Coll : Prim :=
  ⟨"all_reduce", [.obj ⟨⟨"g", 1, false⟩, .subtensor, none⟩],
    [.obj ⟨⟨"o", 2, false⟩, .subtensor, none⟩], [], [0], true⟩

/-- A non-collective primitive placed after the collective for the C1
failing input. -/
def c1NonColl : Prim :=
  ⟨"move", [.obj ⟨⟨"x", 3, false⟩, .subtensor, none⟩],
    [.obj ⟨⟨"y", 4, false⟩, .subtensor, none⟩], [], [0], false⟩

/-- The C1 adapter: pinned to device 0, primitive sequence
`[collective, non-collective]`. -/
def c1Node : AdapterNode :=
  ⟨"adapter", [], [], [], [0], false, false, [c1Coll, c1NonColl]⟩

/-- C1, evaluated at the failing input: for the primitive sequence
`[collective@[0], non-collective]` — a collective followed by a
non-collective, which the spec (and the source's own comment on
condition 1) declares illegal for async overlap — the ordering check
is skipped because it is guarded by `len(non_colls) > 1`, so the
async request is NOT downgraded: the async flag survives, the
collective's keyword arguments receive `async_op=True`, and the
emitted statement carries it, even though the spec-side legality
predicate rejects the sequence. -/
theorem c1_ordering_violation_not_downgraded :
    specAsyncLegalB [c1Coll, c1NonColl] = false ∧
    adapterAsync [c1Coll, c1NonColl] true = true ∧
    dictFind? (primFinalKwargs (adapterAsync [c1Coll, c1NonColl] true) c1Coll) "async_op" =
      some (Val.vbool true) ∧
    emit_adapter false c1Node none true =
      .ok ["o_2 = all_reduce(g_1, async_op=True)", "y_4 = move(x_3, )"] :=
  ⟨rfl, rfl, rfl, rfl⟩

/-- A collective on device group `[1]` for the C4 counterexample. -/
def c4xColl : Prim :=
  ⟨"all_gather", [.obj ⟨⟨"u", 11, false⟩, .subtensor, none⟩],
    [.obj ⟨⟨"v", 12, false⟩, .subtensor, none⟩], [], [1], true⟩

/-- A non-collective placed after the collective for the C4
counterexample. -/
def c4xNonColl : Prim :=
  ⟨"split", [.obj ⟨⟨"v", 12, false⟩, .subtensor, none⟩],
    [.obj ⟨⟨"w", 13, false⟩, .subtensor, none⟩], [], [1], false⟩

/-- C4 counterexample: for `[collective@[1], non-collective]` the
spec's legality conditions fail (ordering violation), yet the
collective still receives `async_op=True` in its keyword arguments —
so "async flag if and only if the legality conditions hold" is false
on the code. -/
theorem c4_counterexample_flag_without_legality :
    specAsyncLegalB [c4xColl, c4xNonColl] = false ∧
    dictFind? (primFinalKwargs (adapterAsync [c4xColl, c4xNonColl] true) c4xColl) "async_op" =
      some (Val.vbool true) :=
  ⟨rfl, rfl⟩

/-- First collective of the device-group-mismatch case, on `[0, 1]`. -/
def c4MisColl1 : Prim :=
  ⟨"all_reduce", [.obj ⟨⟨"m", 31, false⟩, .subtensor, none⟩],
    [.obj ⟨⟨"n", 32, false⟩, .subtensor, none⟩], [], [0, 1], true⟩

/-- Second collective of the device-group-mismatch case, on `[2, 3]`. -/
def c4MisColl2 : Prim :=
  ⟨"all_reduce", [.obj ⟨⟨"q", 33, false⟩, .subtensor, none⟩],
    [.obj ⟨⟨"r", 34, false⟩, .subtensor, none⟩], [], [2, 3], true⟩

/-- Non-collective prefix of the positive async case. -/
def c4PosNc : Prim :=
  ⟨"split", [.obj ⟨⟨"s", 21, false⟩, .subtensor, none⟩],
    [.obj ⟨⟨"t", 22, false⟩, .subtensor, none⟩], [], [0, 1], false⟩

/-- First collective of the positive async case, on `[0, 1]`. -/
def c4PosColl1 : Prim :=
  ⟨"all_gather", [.obj ⟨⟨"t", 22, false⟩, .subtensor, none⟩],
    [.obj ⟨⟨"u", 23, false⟩, .subtensor, none⟩], [], [0, 1], true⟩

/-- Second collective of the positive async case, on `[1, 0]` (the
same device set as `[0, 1]`). -/
def c4PosColl2 : Prim :=
  ⟨"reduce_scatter", [.obj ⟨⟨"u", 23, false⟩, .subtensor, none⟩],
    [.obj ⟨⟨"w", 24, false⟩, .subtensor, none⟩], [], [1, 0], true⟩

/-- The positive-case adapter, pinned to device 0. -/
def c4PosNode : AdapterNode :=
  ⟨"adapter", [], [], [], [0], false, false, [c4PosNc, c4PosColl1, c4PosColl2]⟩

/-- C4 (amended): a collective primitive receives `async_op=True` in
its keyword arguments iff the async request survives the code's
guarded legality checks (the ordering condition is enforced only when
more than one non-collective primitive is present, device-group
uniformity only when more than one collective is present); in
particular the device-group mismatch `[collective@[0,1],
collective@[2,3]]` forces synchronous emission with no flag on either
collective, and the legal sequence `[non-collective,
collective@[0,1], collective@[1,0]]` is emitted with the flag on both
collectives. -/
theorem c4_async_flag_amended :
    (∀ (prims : List Prim) (p : Prim), p.is_comm = true →
        dictFind? p.kwargs "async_op" = none →
        (dictFind? (primFinalKwargs (adapterAsync prims true) p) "async_op" =
            some (Val.vbool true) ↔ adapterAsync prims true = true)) ∧
    adapterAsync [c4MisColl1, c4MisColl2] true = false ∧
    dictFind? (primFinalKwargs (adapterAsync [c4MisColl1, c4MisColl2] true) c4MisColl1)
      "async_op" = none ∧
    dictFind? (primFinalKwargs (adapterAsync [c4MisColl1, c4MisColl2] true) c4MisColl2)
      "async_op" = none ∧
    adapterAsync [c4PosNc, c4PosColl1, c4PosColl2] true = true ∧
    dictFind? (primFinalKwargs (adapterAsync [c4PosNc, c4PosColl1, c4PosColl2] true)
      c4PosColl1) "async_op" = some (Val.vbool true) ∧
    dictFind? (primFinalKwargs (adapterAsync [c4PosNc, c4PosColl1, c4PosColl2] true)
      c4PosColl2) "async_op" = some (Val.vbool true) ∧
    emit_adapter false c4PosNode none true =
      .ok ["t_22 = split(s_21, )", "u_23 = all_gather(t_22, async_op=True)",
        "w_24 = reduce_scatter(u_23, async_op=True)"] := by
  refine ⟨?_, rfl, rfl, rfl, rfl, rfl, rfl, rfl⟩
  intro prims p hc hk
  cases ha : adapterAsync prims true with
  | false => simp [primFinalKwargs, hk]
  | true => simp [primFinalKwargs, hc, dictFind?_dictSet]

/-- Witness for C4's general iff at the positive-case input. -/
theorem c4_async_flag_amended_witness :
    c4PosColl1.is_comm = true ∧ dictFind? c4PosColl1.kwargs "async_op" = none ∧
    (dictFind? (primFinalKwargs (adapterAsync [c4PosNc, c4PosColl1, c4PosColl2] true)
        c4PosColl1) "async_op" = some (Val.vbool true) ↔
      adapterAsync [c4PosNc, c4PosColl1, c4PosColl2] true = true) :=
  ⟨rfl, rfl,
    c4_async_flag_amended.1 [c4PosNc, c4PosColl1, c4PosColl2] c4PosColl1 rfl rfl⟩

theorem emit_fnode_flat_eq (rule : EmitRule) (fresh : Nat) (sig : String)
    (ins : List Val) (kws : List (String × Val)) (outs : List Val)
    (devid pnd rnd : Nat) (pre : Option String)
    (hne : outs ≠ [])
    (hflat : ((collectPaths (.vlist outs) [] []).all fun x => x.2.length = 1) = true) :
    emit_fnode (fun _ => some rule) false fresh ⟨none, sig, ins, kws, outs⟩ devid pnd rnd pre =
      .ok [String.intercalate ", " (outs.map fun t => tensor_name t none) ++ " = " ++
        rule ⟨none, sig, ins, kws, outs⟩ (ins.map fun t => tensor_name t pre)
          (kwargs_dict kws) devid pnd rnd] := by
  have hlen : ¬ ([] ++ outs).length = 0 := by
    simpa using fun h => hne (List.length_eq_zero.mp h)
  simp [emit_fnode, hlen, hflat]
  exact fun h => absurd h hne

theorem emit_fnode_nested_eq (rule : EmitRule) (fresh : Nat) (sig : String)
    (ins : List Val) (kws : List (String × Val)) (outs : List Val)
    (devid pnd rnd : Nat) (pre : Option String)
    (hne : outs ≠ [])
    (hnested : ((collectPaths (.vlist outs) [] []).all fun x => x.2.length = 1) = false) :
    emit_fnode (fun _ => some rule) false fresh ⟨none, sig, ins, kws, outs⟩ devid pnd rnd pre =
      .ok ((String.intercalate ", " (fnodeOutsIms fresh outs).1 ++ " = " ++
          rule ⟨none, sig, ins, kws, outs⟩ (ins.map fun t => tensor_name t pre)
            (kwargs_dict kws) devid pnd rnd) ::
        (extractLines (collectPaths (.vlist outs) [] []) (fnodeOutsIms fresh outs).1 ++
          (fnodeOutsIms fresh outs).2.map fun im => "del " ++ im)) := by
  have hlen : ¬ ([] ++ outs).length = 0 := by
    simpa using fun h => hne (List.length_eq_zero.mp h)
  simp [emit_fnode, hlen, hnested]
  exact fun h => absurd h hne

theorem fnodeOutsIms_fst_length :
    ∀ (c : Nat) (ts : List Val), (fnodeOutsIms c ts).1.length = ts.length := by
  intro c ts
  induction ts generalizing c with
  | nil => rfl
  | cons t ts ih => cases t <;> simp [fnodeOutsIms, ih]

theorem fnodeOutsIms_nonobj :
    ∀ (c : Nat) (ts : List Val) (i : Nat) (t : Val),
      ts.get? i = some t → (∀ d, t ≠ .obj d) →
      ∃ k, (fnodeOutsIms c ts).1.get? i =
          some (tensor_name (.obj ⟨⟨"im_output", k, false⟩, .object, none⟩) none) ∧
        tensor_name (.obj ⟨⟨"im_output", k, false⟩, .object, none⟩) none ∈
          (fnodeOutsIms c ts).2 := by
  intro c ts
  induction ts generalizing c with
  | nil => intro i t h; simp at h
  | cons hd ts ih =>
    intro i t hget hno
    cases i with
    | zero =>
      simp only [List.get?] at hget
      injection hget with hget
      subst hget
      cases hd <;> first
        | exact absurd rfl (hno _)
        | exact ⟨c, by simp [fnodeOutsIms], by simp [fnodeOutsIms]⟩
    | succ n =>
      simp only [List.get?] at hget
      cases hd <;> first
        | (obtain ⟨k, h1, h2⟩ := ih c n t hget hno
           exact ⟨k, by simpa [fnodeOutsIms] using h1, by simpa [fnodeOutsIms] using h2⟩)
        | (obtain ⟨k, h1, h2⟩ := ih (c + 1) n t hget hno
           refine ⟨k, by simpa [fnodeOutsIms] using h1, ?_⟩
           simp only [fnodeOutsIms, List.mem_cons]
           exact Or.inr h2)

/-- C2 counterexample: the forward node with output tree `[a, 0]` has
a non-managed (literal) top-level slot, but every managed value sits
at a top-level leaf, so `emit_fnode` takes the flat branch: the single
emitted statement renders the literal `0` as part of the assignment
target, no intermediate is synthesized, and no deletion statement is
emitted (the emitted list has exactly one element). -/
theorem c2_flat_literal_slot_counterexample :
    emit_fnode (fun _ => some fun _ _ _ _ _ _ => "rhs") false 0
        ⟨none, "f", [], [], [.obj ⟨⟨"a", 1, false⟩, .tensor, none⟩, .vint 0]⟩ 0 0 0 none =
      .ok ["a_1, 0 = rhs"] ∧
    (emit_fnode (fun _ => some fun _ _ _ _ _ _ => "rhs") false 0
        ⟨none, "f", [], [], [.obj ⟨⟨"a", 1, false⟩, .tensor, none⟩, .vint 0]⟩ 0 0 0 none).map
      List.length = .ok 1 :=
  ⟨rfl, rfl⟩

/-- C2 (amended): for every forward node with at least one output
whose output tree holds some managed value deeper than a top-level
slot (the condition that actually routes `emit_fnode` into the
nested-binding branch), every non-managed top-level slot is bound to
a freshly synthesized `im_output` intermediate name, and an explicit
deletion statement is emitted for every synthesized intermediate
binding. -/
theorem c2_nested_intermediates_amended :
    ∀ (rule : EmitRule) (fresh : Nat) (sig : String) (ins : List Val)
      (kws : List (String × Val)) (outs : List Val) (devid pnd rnd : Nat)
      (pre : Option String),
      outs ≠ [] →
      ((collectPaths (.vlist outs) [] []).all fun x => x.2.length = 1) = false →
      emit_fnode (fun _ => some rule) false fresh ⟨none, sig, ins, kws, outs⟩
          devid pnd rnd pre =
        .ok ((String.intercalate ", " (fnodeOutsIms fresh outs).1 ++ " = " ++
            rule ⟨none, sig, ins, kws, outs⟩ (ins.map fun t => tensor_name t pre)
              (kwargs_dict kws) devid pnd rnd) ::
          (extractLines (collectPaths (.vlist outs) [] []) (fnodeOutsIms fresh outs).1 ++
            (fnodeOutsIms fresh outs).2.map fun im => "del " ++ im)) ∧
      (∀ (i : Nat) (t : Val), outs.get? i = some t → (∀ d, t ≠ .obj d) →
          ∃ k, (fnodeOutsIms fresh outs).1.get? i =
              some (tensor_name (.obj ⟨⟨"im_output", k, false⟩, .object, none⟩) none) ∧
            tensor_name (.obj ⟨⟨"im_output", k, false⟩, .object, none⟩) none ∈
              (fnodeOutsIms fresh outs).2) ∧
      (∀ im ∈ (fnodeOutsIms fresh outs).2,
          ("del " ++ im) ∈
            ((String.intercalate ", " (fnodeOutsIms fresh outs).1 ++ " = " ++
                rule ⟨none, sig, ins, kws, outs⟩ (ins.map fun t => tensor_name t pre)
                  (kwargs_dict kws) devid pnd rnd) ::
              (extractLines (collectPaths (.vlist outs) [] [])
                  (fnodeOutsIms fresh outs).1 ++
                (fnodeOutsIms fresh outs).2.map fun im => "del " ++ im))) := by
  intro rule fresh sig ins kws outs devid pnd rnd pre hne hnested
  refine ⟨emit_fnode_nested_eq rule fresh sig ins kws outs devid pnd rnd pre hne hnested,
    fun i t hget hno => fnodeOutsIms_nonobj fresh outs i t hget hno,
    fun im him => ?_⟩
  exact List.mem_cons_of_mem _ (List.mem_append.mpr (Or.inr (List.mem_map_of_mem _ him)))

/-- Witness for C2 (amended) at the output tree `[7, [a]]`: both
top-level slots are non-managed (a literal and a nested list), both
are bound to fresh intermediates, and both intermediates are
deleted. -/
theorem c2_nested_intermediates_amended_witness :
    (([Val.vint 7, Val.vlist [Val.obj ⟨⟨"a", 1, false⟩, .tensor, none⟩]] : List Val) ≠ []) ∧
    (((collectPaths
          (.vlist [Val.vint 7, Val.vlist [Val.obj ⟨⟨"a", 1, false⟩, .tensor, none⟩]])
          [] []).all fun x => x.2.length = 1) = false) ∧
    emit_fnode (fun _ => some fun _ _ _ _ _ _ => "rhs") false 0
        ⟨none, "f", [], [],
          [Val.vint 7, Val.vlist [Val.obj ⟨⟨"a", 1, false⟩, .tensor, none⟩]]⟩ 0 0 0 none =
      .ok ["im_output_0, im_output_1 = rhs", "a_1 = im_output_1[0]",
        "del im_output_0", "del im_output_1"] := by
  refine ⟨List.cons_ne_nil _ _, rfl, ?_⟩
  have h := (c2_nested_intermediates_amended (fun _ _ _ _ _ _ => "rhs") 0 "f" [] []
    [Val.vint 7, Val.vlist [Val.obj ⟨⟨"a", 1, false⟩, .tensor, none⟩]] 0 0 0 none
    (List.cons_ne_nil _ _) rfl).1
  exact h.trans rfl

/-- C6: a flat 2-tuple of managed outputs is bound by exactly one
assignment statement naming both values; one managed value nested two
levels deep inside a list-of-list is bound through one assignment to
a synthesized intermediate, exactly one indexing-extraction
statement, and exactly one deletion statement for the intermediate. -/
theorem c6_flat_and_nested_binding :
    (∀ (rule : EmitRule) (sig : String) (ins : List Val) (kws : List (String × Val))
        (A B : ObjData) (devid pnd rnd fresh : Nat) (pre : Option String),
        emit_fnode (fun _ => some rule) false fresh ⟨none, sig, ins, kws, [.obj A, .obj B]⟩
            devid pnd rnd pre =
          .ok [tensor_name (.obj A) none ++ ", " ++ tensor_name (.obj B) none ++ " = " ++
            rule ⟨none, sig, ins, kws, [.obj A, .obj B]⟩ (ins.map fun t => tensor_name t pre)
              (kwargs_dict kws) devid pnd rnd]) ∧
    (∀ (rule : EmitRule) (sig : String) (ins : List Val) (kws : List (String × Val))
        (A : ObjData) (devid pnd rnd fresh : Nat) (pre : Option String),
        emit_fnode (fun _ => some rule) false fresh
            ⟨none, sig, ins, kws, [.vlist [.vlist [.obj A]]]⟩ devid pnd rnd pre =
          .ok [tensor_name (.obj ⟨⟨"im_output", fresh, false⟩, .object, none⟩) none ++
              " = " ++
              rule ⟨none, sig, ins, kws, [.vlist [.vlist [.obj A]]]⟩
                (ins.map fun t => tensor_name t pre) (kwargs_dict kws) devid pnd rnd,
            tensor_name (.obj A) none ++ " = " ++
              (tensor_name (.obj ⟨⟨"im_output", fresh, false⟩, .object, none⟩) none ++
                "[" ++ "0" ++ "]" ++ "[" ++ "0" ++ "]"),
            "del " ++
              tensor_name (.obj ⟨⟨"im_output", fresh, false⟩, .object, none⟩) none]) := by
  constructor
  · intro rule sig ins kws A B devid pnd rnd fresh pre
    have hne : ([Val.obj A, Val.obj B] : List Val) ≠ [] := List.cons_ne_nil _ _
    by_cases hAB : A = B
    · subst hAB
      have hflat : ((collectPaths (.vlist [Val.obj A, Val.obj A]) [] []).all
          fun x => x.2.length = 1) = true := by
        simp [collectPaths, collectPathsIdx, dictSet]
      exact (emit_fnode_flat_eq rule fresh sig ins kws [Val.obj A, Val.obj A]
        devid pnd rnd pre hne hflat).trans rfl
    · have hflat : ((collectPaths (.vlist [Val.obj A, Val.obj B]) [] []).all
          fun x => x.2.length = 1) = true := by
        simp [collectPaths, collectPathsIdx, dictSet, hAB]
      exact (emit_fnode_flat_eq rule fresh sig ins kws [Val.obj A, Val.obj B]
        devid pnd rnd pre hne hflat).trans rfl
  · intro rule sig ins kws A devid pnd rnd fresh pre
    rfl

/-- C9: `tuple_name` of a single rendered element always carries the
trailing `", "` immediately before the closing bracket; the empty
list, and a list whose every element is a skipped tensor attribute,
render as the empty grouping `"()"`. -/
theorem c9_tuple_name_trailing_comma :
    (∀ (t : Val) (skip : Bool) (pre : Option String),
        (isTensorVal t && skip && valIsAttr t) = false →
        tuple_name [t] skip pre = "(" ++ tensor_name t pre ++ ", )") ∧
    (∀ (skip : Bool) (pre : Option String), tuple_name [] skip pre = "()") ∧
    (∀ (ts : List Val) (pre : Option String),
        (∀ t ∈ ts, (isTensorVal t && valIsAttr t) = true) →
        tuple_name ts true pre = "()") := by
  have hconst : (", " : String) ++ ")" = ", )" := rfl
  refine ⟨?_, fun skip pre => rfl, ?_⟩
  · intro t skip pre h
    simp only [tuple_name, List.filterMap, h, Bool.false_eq_true, if_false]
    rw [← hconst]
    simp [String.intercalate, String.intercalate.go, String.append_empty,
      String.append_assoc]
  · intro ts pre hall
    have hnil : (ts.filterMap fun t =>
        if isTensorVal t && true && valIsAttr t then none
        else some (tensor_name t pre)) = [] := by
      refine List.filterMap_eq_nil_iff.mpr fun t ht => ?_
      simp [hall t ht]
    simp only [tuple_name, hnil]
    rfl

/-- Witness for C9 at the single non-attribute tensor `x`. -/
theorem c9_tuple_name_trailing_comma_witness :
    (isTensorVal (Val.obj ⟨⟨"x", 1, false⟩, .tensor, none⟩) && false &&
      valIsAttr (Val.obj ⟨⟨"x", 1, false⟩, .tensor, none⟩)) = false ∧
    tuple_name [Val.obj ⟨⟨"x", 1, false⟩, .tensor, none⟩] false none =
      "(" ++ tensor_name (Val.obj ⟨⟨"x", 1, false⟩, .tensor, none⟩) none ++ ", )" :=
  ⟨by decide,
    c9_tuple_name_trailing_comma.1 (Val.obj ⟨⟨"x", 1, false⟩, .tensor, none⟩) false none
      (by decide)⟩

end Emit
